import Mathlib

/-!
Verification of the world_language_app school-management dashboard.

Dates are embedded as epoch day numbers (days since 1970-01-01, `Int`),
the representation underlying the `date-fns` calendar arithmetic that the
source uses: `parseISO` of a `yyyy-MM-dd` string determines such a day
number, stepping `currentDate` by one day is `+ 1`, and two dates render
to the same `yyyy-MM-dd` string exactly when their day numbers are equal.
-/

namespace WorldLanguage

/-- Epoch day number of the civil date `y-m-d` (days since 1970-01-01),
the standard days-from-civil computation.  Embeds `parseISO`. -/
def toEpochDay (y m d : Int) : Int :=
  let y' := if m ≤ 2 then y - 1 else y
  let era := (if 0 ≤ y' then y' else y' - 399) / 400
  let yoe := y' - era * 400
  let mp := (m + 9) % 12
  let doy := (153 * mp + 2) / 5 + d - 1
  let doe := yoe * 365 + yoe / 4 - yoe / 100 + doy
  era * 146097 + doe - 719468

/-- Day of week of an epoch day: 0 = Sunday, …, 6 = Saturday
(1970-01-01 was a Thursday, code 4). -/
def dayOfWeek (n : Int) : Int := (n + 4) % 7

/-- The full weekday name, as `date-fns` `format(date, 'EEEE')` produces it. -/
def weekdayName (n : Int) : String :=
  let w := dayOfWeek n
  if w = 0 then "Sunday"
  else if w = 1 then "Monday"
  else if w = 2 then "Tuesday"
  else if w = 3 then "Wednesday"
  else if w = 4 then "Thursday"
  else if w = 5 then "Friday"
  else "Saturday"

/-- `date-fns` `isWeekend`: Saturday or Sunday. -/
def isWeekend (n : Int) : Bool := dayOfWeek n == 0 || dayOfWeek n == 6

/-- The filter applied to each candidate day in the `classDates` loop of
`Attendance.tsx`: the weekday name is in the classroom schedule, the day
is not a weekend, and no break date falls on the same calendar day
(the source compares `format(_, 'yyyy-MM-dd')` strings, i.e. equality of
epoch days). -/
def keepClassDate (days : List String) (breakDates : List Int) (n : Int) : Bool :=
  days.contains (weekdayName n) && !(isWeekend n) && !(breakDates.any (· == n))

/-- The `while (currentDate <= endDate)` loop of `classDates` in
`Attendance.tsx`: scan day by day from `cur` to `endDate`.  When `cur`
passes `keepClassDate`, the source does `dates.push(currentDate)` and
then `currentDate = new Date(currentDate.setDate(currentDate.getDate()
+ 1))` — `push` stores a *reference* to the `Date` object and `setDate`
mutates that same object in place before the `new Date(...)` clone, so
the value the pushed entry ends up holding is `cur + 1`, one day after
the day that passed the filter.  `fuel` bounds the number of
iterations; `classDates` passes enough fuel for the loop to run to
completion. -/
def classDatesGo (days : List String) (breakDates : List Int) (endDate : Int) :
    Nat → Int → List Int
  | 0, _ => []
  | fuel + 1, cur =>
    if cur ≤ endDate then
      (if keepClassDate days breakDates cur then [cur + 1] else []) ++
        classDatesGo days breakDates endDate fuel (cur + 1)
    else []

/-- `classDates` from `Attendance.tsx` (lines 93–118): the list the
loop leaves in `dates`, derived from the quarter's start/end dates, the
classroom's scheduled weekday names, and the quarter's break dates.
Because of the push-then-mutate aliasing in the loop body, every
element is one day after a day that passed the filter. -/
def classDates (startDate endDate : Int) (days : List String) (breakDates : List Int) :
    List Int :=
  classDatesGo days breakDates endDate (endDate + 1 - startDate).toNat startDate

theorem classDatesGo_subset (days : List String) (breakDates : List Int)
    (endDate : Int) : ∀ (fuel : Nat) (cur d : Int),
    d ∈ classDatesGo days breakDates endDate fuel cur →
      cur ≤ d - 1 ∧ d - 1 ≤ endDate ∧ keepClassDate days breakDates (d - 1) = true := by
  intro fuel
  induction fuel with
  | zero => intro cur d h; simp [classDatesGo] at h
  | succ fuel ih =>
    intro cur d h
    rw [classDatesGo] at h
    by_cases hle : cur ≤ endDate
    · rw [if_pos hle] at h
      rcases List.mem_append.1 h with h1 | h2
      · by_cases hk : keepClassDate days breakDates cur
        · rw [if_pos hk, List.mem_singleton] at h1
          refine ⟨by omega, by omega, ?_⟩
          rw [show d - 1 = cur by omega]
          exact hk
        · rw [if_neg hk] at h1
          simp at h1
      · have := ih (cur + 1) d h2
        exact ⟨by omega, this.2.1, this.2.2⟩
    · rw [if_neg hle] at h
      simp at h

theorem mem_classDatesGo (days : List String) (breakDates : List Int)
    (endDate : Int) : ∀ (fuel : Nat) (cur d : Int),
    (endDate + 1 - cur).toNat ≤ fuel →
    (d ∈ classDatesGo days breakDates endDate fuel cur ↔
      cur ≤ d - 1 ∧ d - 1 ≤ endDate ∧
        keepClassDate days breakDates (d - 1) = true) := by
  intro fuel
  induction fuel with
  | zero =>
    intro cur d hfuel
    rw [classDatesGo]
    simp only [List.not_mem_nil, false_iff]
    rintro ⟨h1, h2, _⟩
    omega
  | succ fuel ih =>
    intro cur d hfuel
    rw [classDatesGo]
    by_cases hle : cur ≤ endDate
    · rw [if_pos hle, List.mem_append]
      rw [ih (cur + 1) d (by omega)]
      by_cases hk : keepClassDate days breakDates cur
      · simp only [if_pos hk, List.mem_singleton]
        constructor
        · rintro (rfl | ⟨h1, h2, h3⟩)
          · refine ⟨by omega, by omega, ?_⟩
            rw [show cur + 1 - 1 = cur by omega]
            exact hk
          · exact ⟨by omega, h2, h3⟩
        · rintro ⟨h1, h2, h3⟩
          rcases eq_or_lt_of_le h1 with heq | hlt
          · exact Or.inl (by omega)
          · exact Or.inr ⟨by omega, h2, h3⟩
      · simp only [if_neg hk, List.not_mem_nil, false_or]
        constructor
        · rintro ⟨h1, h2, h3⟩
          exact ⟨by omega, h2, h3⟩
        · rintro ⟨h1, h2, h3⟩
          rcases eq_or_lt_of_le h1 with heq | hlt
          · rw [show d - 1 = cur by omega] at h3
            exact absurd h3 hk
          · exact ⟨by omega, h2, h3⟩
    · rw [if_neg hle]
      simp only [List.not_mem_nil, false_iff]
      rintro ⟨h1, h2, _⟩
      omega

theorem sorted_classDatesGo (days : List String) (breakDates : List Int)
    (endDate : Int) : ∀ (fuel : Nat) (cur : Int),
    (classDatesGo days breakDates endDate fuel cur).Sorted (· < ·) := by
  intro fuel
  induction fuel with
  | zero => intro cur; rw [classDatesGo]; exact List.sorted_nil
  | succ fuel ih =>
    intro cur
    rw [classDatesGo]
    by_cases hle : cur ≤ endDate
    · rw [if_pos hle]
      by_cases hk : keepClassDate days breakDates cur
      · rw [if_pos hk, List.singleton_append, List.sorted_cons]
        refine ⟨fun b hb => ?_, ih (cur + 1)⟩
        have := classDatesGo_subset days breakDates endDate fuel (cur + 1) b hb
        omega
      · rw [if_neg hk, List.nil_append]
        exact ih (cur + 1)
    · rw [if_neg hle]
      exact List.sorted_nil

/-- **C1 (code bug).** The claim describes the filter's intent: the
class-date list should hold exactly the dates in `[D1, D2]` whose
weekday is in `S`, excluding weekends and break dates.  The code's loop
pushes the `Date` object and then mutates it in place
(`currentDate.setDate(currentDate.getDate() + 1)` before the
`new Date(...)` clone), so the list it actually produces holds each
kept day *plus one*: on the claim's instance (start 2024-01-01,
end 2024-01-14, `S` = {Monday, Wednesday}, `B` = {2024-01-08}) the
program yields [2024-01-02, 2024-01-04, 2024-01-11], not the claimed
[2024-01-01, 2024-01-03, 2024-01-10]; in general a date `d` is in the
output iff `d - 1` (not `d`) lies in range and passes the weekday /
weekend / break filter, the output being strictly ascending. -/
theorem classDates_shifted :
    classDates (toEpochDay 2024 1 1) (toEpochDay 2024 1 14)
        ["Monday", "Wednesday"] [toEpochDay 2024 1 8] =
      [toEpochDay 2024 1 2, toEpochDay 2024 1 4, toEpochDay 2024 1 11] ∧
    classDates (toEpochDay 2024 1 1) (toEpochDay 2024 1 14)
        ["Monday", "Wednesday"] [toEpochDay 2024 1 8] ≠
      [toEpochDay 2024 1 1, toEpochDay 2024 1 3, toEpochDay 2024 1 10] ∧
    (∀ (startDate endDate d : Int) (days : List String) (breakDates : List Int),
      d ∈ classDates startDate endDate days breakDates ↔
        startDate ≤ d - 1 ∧ d - 1 ≤ endDate ∧ weekdayName (d - 1) ∈ days ∧
          isWeekend (d - 1) = false ∧ (d - 1) ∉ breakDates) ∧
    (∀ (startDate endDate : Int) (days : List String) (breakDates : List Int),
      (classDates startDate endDate days breakDates).Sorted (· < ·)) := by
  refine ⟨by decide, by decide, ?_, ?_⟩
  · intro startDate endDate d days breakDates
    rw [classDates,
      mem_classDatesGo days breakDates endDate _ startDate d (by omega)]
    simp only [keepClassDate, Bool.and_eq_true, Bool.not_eq_true',
      List.elem_iff, List.any_eq_false, beq_iff_eq, and_assoc]
    constructor
    · rintro ⟨h1, h2, h3, h4, h5⟩
      exact ⟨h1, h2, h3, h4, fun hmem => (h5 (d - 1) hmem) rfl⟩
    · rintro ⟨h1, h2, h3, h4, h5⟩
      exact ⟨h1, h2, h3, h4, fun b hb hbd => h5 (hbd ▸ hb)⟩
  · intro startDate endDate days breakDates
    exact sorted_classDatesGo days breakDates endDate _ startDate

/-! ## Quarters: activation (`Quarters.tsx`) -/

/-- A row of the `quarters` table (`src/types/Quarter`); activation only
ever touches the `active` flag. -/
structure Quarter where
  id : String
  name : String
  start_date : String
  end_date : String
  break_dates : List String
  active : Bool
deriving DecidableEq

/-- First update of `handleActivate` (`Quarters.tsx` lines 110–115):
`update({ active: false }).neq("id", quarterId)` — deactivate every
quarter other than the selected one. -/
def deactivateOthers (quarterId : String) (quarters : List Quarter) : List Quarter :=
  quarters.map fun q => if q.id ≠ quarterId then { q with active := false } else q

/-- Second update of `handleActivate` (`Quarters.tsx` lines 118–123):
`update({ active: true }).eq("id", quarterId)` — activate the selected
quarter. -/
def activateOne (quarterId : String) (quarters : List Quarter) : List Quarter :=
  quarters.map fun q => if q.id = quarterId then { q with active := true } else q

/-- `handleActivate` (`Quarters.tsx` lines 107–133), successful run:
both updates applied in order. -/
def handleActivate (quarterId : String) (quarters : List Quarter) : List Quarter :=
  activateOne quarterId (deactivateOthers quarterId quarters)

theorem handleActivate_cons (quarterId : String) (q : Quarter) (rest : List Quarter) :
    handleActivate quarterId (q :: rest) =
      (if q.id = quarterId then { q with active := true }
       else { q with active := false }) :: handleActivate quarterId rest := by
  by_cases h : q.id = quarterId <;>
    simp [handleActivate, deactivateOthers, activateOne, h]

theorem active_of_mem_handleActivate (quarterId : String) (quarters : List Quarter) :
    ∀ q ∈ handleActivate quarterId quarters, (q.active = true ↔ q.id = quarterId) := by
  induction quarters with
  | nil => intro q hq; simp [handleActivate, deactivateOthers, activateOne] at hq
  | cons p rest ih =>
    intro q hq
    rw [handleActivate_cons] at hq
    rcases List.mem_cons.1 hq with rfl | hmem
    · by_cases h : p.id = quarterId <;> simp [h]
    · exact ih q hmem

theorem length_filter_handleActivate (quarterId : String) (quarters : List Quarter) :
    ((handleActivate quarterId quarters).filter (·.active)).length =
      (quarters.map Quarter.id).count quarterId := by
  induction quarters with
  | nil => simp [handleActivate, deactivateOthers, activateOne]
  | cons p rest ih =>
    rw [handleActivate_cons]
    by_cases h : p.id = quarterId
    · simp only [if_pos h, List.map_cons, List.filter_cons, List.count_cons]
      simp [h, ih]
    · simp only [if_neg h, List.map_cons, List.filter_cons, List.count_cons]
      simp [h, ih]

/-- **C2.** Quarter activation: for every set of quarters (with any
combination of `active` flags, ids pairwise distinct as the table's
primary key guarantees) and every quarter id `quarterId` present in it,
after `handleActivate quarterId` completes successfully, exactly one
quarter has `active = true`, and that quarter is the one with id
`quarterId`. -/
theorem handleActivate_spec (quarterId : String) (quarters : List Quarter)
    (hmem : quarterId ∈ quarters.map Quarter.id)
    (hnodup : (quarters.map Quarter.id).Nodup) :
    ((handleActivate quarterId quarters).filter (·.active)).length = 1 ∧
      ∀ q ∈ handleActivate quarterId quarters, q.active = true → q.id = quarterId := by
  constructor
  · rw [length_filter_handleActivate]
    exact List.count_eq_one_of_mem hnodup hmem
  · intro q hq hact
    exact (active_of_mem_handleActivate quarterId quarters q hq).1 hact

/-- Witness for `handleActivate_spec` at a concrete two-quarter store. -/
theorem handleActivate_spec_witness :
    (((handleActivate "q2"
        [⟨"q1", "Q1", "2024-01-01", "2024-03-31", [], true⟩,
         ⟨"q2", "Q2", "2024-04-01", "2024-06-30", [], false⟩]).filter
          (·.active)).length = 1 ∧
      ∀ q ∈ handleActivate "q2"
        [⟨"q1", "Q1", "2024-01-01", "2024-03-31", [], true⟩,
         ⟨"q2", "Q2", "2024-04-01", "2024-06-30", [], false⟩],
        q.active = true → q.id = "q2") :=
  handleActivate_spec "q2" _ (by decide) (by decide)

/-- `handleActivate` when the first update succeeds but the second
(`update({ active: true }).eq("id", quarterId)`) fails: on the thrown
error the mutation returns, leaving the store as the first update left
it — nothing is rolled back.  Returns the thrown error and the resulting
store state. -/
def handleActivateSecondUpdateFails (quarterId : String) (quarters : List Quarter)
    (errMsg : String) : Except String Unit × List Quarter :=
  (Except.error errMsg, deactivateOthers quarterId quarters)

/-- **C9.** Quarter activation is not atomic on error: if the first
update (deactivating all quarters other than `quarterId`) succeeds and
the second update fails, the operation throws without restoring the
prior `active` flags — the resulting state is exactly
`deactivateOthers quarterId quarters` — and when the selected quarter
was not previously active, no quarter at all is left active. -/
theorem handleActivateFailure_spec (quarterId errMsg : String)
    (quarters : List Quarter)
    (hq : ∀ q ∈ quarters, q.id = quarterId → q.active = false) :
    (handleActivateSecondUpdateFails quarterId quarters errMsg).1 =
        Except.error errMsg ∧
      (handleActivateSecondUpdateFails quarterId quarters errMsg).2 =
        deactivateOthers quarterId quarters ∧
      (handleActivateSecondUpdateFails quarterId quarters errMsg).2.filter
          (·.active) = [] := by
  refine ⟨rfl, rfl, ?_⟩
  rw [List.filter_eq_nil_iff]
  intro q hq2
  rcases List.mem_map.1 hq2 with ⟨r, hr, hrq⟩
  by_cases h : r.id = quarterId
  · have : ¬(r.id ≠ quarterId) := by simp [h]
    rw [if_neg this] at hrq
    subst hrq
    simp [hq r hr h]
  · rw [if_pos h] at hrq
    subst hrq
    simp

/-- Witness for `handleActivateFailure_spec`: activating `q2` (not
previously active) over a store whose active quarter is `q1`, with the
second update failing, leaves no quarter active. -/
theorem handleActivateFailure_spec_witness :
    (handleActivateSecondUpdateFails "q2"
        [⟨"q1", "Q1", "2024-01-01", "2024-03-31", [], true⟩,
         ⟨"q2", "Q2", "2024-04-01", "2024-06-30", [], false⟩] "boom").1 =
        Except.error "boom" ∧
      (handleActivateSecondUpdateFails "q2"
        [⟨"q1", "Q1", "2024-01-01", "2024-03-31", [], true⟩,
         ⟨"q2", "Q2", "2024-04-01", "2024-06-30", [], false⟩] "boom").2 =
        deactivateOthers "q2"
          [⟨"q1", "Q1", "2024-01-01", "2024-03-31", [], true⟩,
           ⟨"q2", "Q2", "2024-04-01", "2024-06-30", [], false⟩] ∧
      (handleActivateSecondUpdateFails "q2"
        [⟨"q1", "Q1", "2024-01-01", "2024-03-31", [], true⟩,
         ⟨"q2", "Q2", "2024-04-01", "2024-06-30", [], false⟩] "boom").2.filter
          (·.active) = [] :=
  handleActivateFailure_spec "q2" "boom" _ (by decide)

/-! ## Attendance: save/upsert (`Attendance.tsx`) -/

/-- A row of the `attendance` table as written by
`saveAttendanceMutation` (`Attendance.tsx` lines 127–133). -/
structure AttendanceRow where
  classroom_id : String
  student_id : String
  class_date : String
  quarter_id : String
  status : String
deriving DecidableEq

/-- The `onConflict: 'classroom_id,student_id,class_date,quarter_id'`
composite key of the upsert: two rows conflict exactly when all four key
columns agree. -/
def sameKey (a b : AttendanceRow) : Bool :=
  a.classroom_id == b.classroom_id && a.student_id == b.student_id &&
    a.class_date == b.class_date && a.quarter_id == b.quarter_id

theorem sameKey_iff (a b : AttendanceRow) :
    sameKey a b = true ↔
      a.classroom_id = b.classroom_id ∧ a.student_id = b.student_id ∧
        a.class_date = b.class_date ∧ a.quarter_id = b.quarter_id := by
  simp [sameKey, Bool.and_eq_true, and_assoc]

theorem sameKey_refl (a : AttendanceRow) : sameKey a a = true := by
  simp [sameKey_iff]

theorem sameKey_of_sameKey_left {r x b : AttendanceRow}
    (h1 : sameKey r x = true) :
    sameKey r b = sameKey x b := by
  rw [sameKey_iff] at h1
  obtain ⟨e1, e2, e3, e4⟩ := h1
  simp [sameKey, e1, e2, e3, e4]

/-- One-row upsert with `ignoreDuplicates: false`: a stored row
conflicting on the composite key is overwritten in place, otherwise the
row is appended. -/
def upsertOne (store : List AttendanceRow) (r : AttendanceRow) :
    List AttendanceRow :=
  if store.any (fun x => sameKey r x) then
    store.map (fun x => if sameKey r x then r else x)
  else store ++ [r]

/-- The bulk `supabase.from("attendance").upsert(records, ...)` call of
`saveAttendanceMutation`: upsert each record in order. -/
def upsertMany (store : List AttendanceRow) (records : List AttendanceRow) :
    List AttendanceRow :=
  records.foldl upsertOne store

/-- The records built by `saveAttendanceMutation` from the in-memory
`attendanceRecords` entries (one `(studentId, status)` pair per student
holding a status, `Attendance.tsx` lines 127–133). -/
def buildAttendanceRecords (classroomId classDate quarterId : String)
    (entries : List (String × String)) : List AttendanceRow :=
  entries.map fun e => ⟨classroomId, e.1, classDate, quarterId, e.2⟩

theorem any_upsertOne (store : List AttendanceRow) (r : AttendanceRow) :
    (upsertOne store r).any (fun x => sameKey r x) = true := by
  by_cases h : store.any (fun x => sameKey r x)
  · rw [upsertOne, if_pos h]
    rcases List.any_eq_true.1 h with ⟨x, hx, hkey⟩
    exact List.any_eq_true.2
      ⟨r, List.mem_map.2 ⟨x, hx, by rw [if_pos hkey]⟩, sameKey_refl r⟩
  · rw [upsertOne, if_neg h]
    exact List.any_eq_true.2 ⟨r, by simp, sameKey_refl r⟩

theorem mem_upsertOne_key (store : List AttendanceRow) (r : AttendanceRow) :
    ∀ x ∈ upsertOne store r, sameKey r x = true → x = r := by
  intro x hx hk
  rw [upsertOne] at hx
  by_cases h : store.any (fun y => sameKey r y)
  · rw [if_pos h] at hx
    rcases List.mem_map.1 hx with ⟨y, hy, hfy⟩
    by_cases hky : sameKey r y = true
    · rw [if_pos hky] at hfy
      exact hfy.symm
    · rw [if_neg hky] at hfy
      subst hfy
      exact absurd hk hky
  · rw [if_neg h] at hx
    rcases List.mem_append.1 hx with h1 | h2
    · exact absurd hk (by
        have := List.any_eq_false.1 (Bool.not_eq_true _ ▸ h) x h1
        simp [this])
    · simpa using h2

theorem upsertOne_idem (store : List AttendanceRow) (r : AttendanceRow) :
    upsertOne (upsertOne store r) r = upsertOne store r := by
  conv_lhs => rw [upsertOne]
  rw [if_pos (any_upsertOne store r)]
  have h1 : ∀ x ∈ upsertOne store r,
      (if sameKey r x = true then r else x) = id x := by
    intro x hx
    by_cases hk : sameKey r x = true
    · rw [if_pos hk, mem_upsertOne_key store r x hx hk]
      rfl
    · rw [if_neg hk]
      rfl
  rw [List.map_congr_left h1, List.map_id]

theorem filter_upsertOne (store : List AttendanceRow) (r : AttendanceRow)
    (hnodup : store.Pairwise (fun a b => sameKey a b = false)) :
    (upsertOne store r).filter (fun x => sameKey r x) = [r] := by
  induction store with
  | nil => simp [upsertOne, sameKey_refl]
  | cons x s ih =>
    have hpair := (List.pairwise_cons.1 hnodup).1
    have htail := (List.pairwise_cons.1 hnodup).2
    by_cases hx : sameKey r x = true
    · have hany : (x :: s).any (fun y => sameKey r y) = true :=
        List.any_eq_true.2 ⟨x, List.mem_cons_self x s, hx⟩
      rw [upsertOne, if_pos hany, List.map_cons, if_pos hx, List.filter_cons,
        if_pos (by simpa using sameKey_refl r)]
      have hs : ∀ y ∈ s, sameKey r y = false := by
        intro y hy
        rw [sameKey_of_sameKey_left hx]
        exact hpair y hy
      have hmap : s.map (fun y => if sameKey r y then r else y) = s := by
        have h1 : ∀ y ∈ s, (if sameKey r y = true then r else y) = id y := by
          intro y hy
          rw [hs y hy]
          rfl
        rw [List.map_congr_left h1, List.map_id]
      rw [hmap, List.filter_eq_nil_iff.2 (by intro y hy; simp [hs y hy])]

    · by_cases hany : s.any (fun y => sameKey r y) = true
      · have hany2 : (x :: s).any (fun y => sameKey r y) = true := by
          simp only [List.any_cons, Bool.or_eq_true]
          exact Or.inr hany
        have : upsertOne s r = s.map (fun y => if sameKey r y then r else y) := by
          rw [upsertOne, if_pos hany]
        rw [upsertOne, if_pos hany2, List.map_cons, if_neg hx, List.filter_cons,
          if_neg (by simp [hx]), ← this, ih htail]
      · have hany2 : (x :: s).any (fun y => sameKey r y) = false := by
          simp only [List.any_cons, Bool.or_eq_false_iff]
          exact ⟨by simpa using hx, by simpa using hany⟩
        have : upsertOne s r = s ++ [r] := by
          rw [upsertOne, if_neg (by simp [hany])]
        rw [upsertOne, if_neg (by simp [hany2]), List.cons_append,
          List.filter_cons, if_neg (by simp [hx]), ← this, ih htail]

/-- **C4.** Attendance save is idempotent on the composite key: for
every composite key `(classroomId, studentId, classDate, quarterId)` and
`status`, and every prior store satisfying the table's uniqueness
constraint on the key, performing the save upsert twice with the same
key and status leaves the store exactly as a single save does, and the
store then holds exactly one record with that key — with that status. -/
theorem saveAttendance_idempotent (classroomId studentId classDate quarterId
    status : String) (store : List AttendanceRow)
    (hnodup : store.Pairwise (fun a b => sameKey a b = false)) :
    upsertMany
        (upsertMany store
          (buildAttendanceRecords classroomId classDate quarterId
            [(studentId, status)]))
        (buildAttendanceRecords classroomId classDate quarterId
          [(studentId, status)]) =
      upsertMany store
        (buildAttendanceRecords classroomId classDate quarterId
          [(studentId, status)]) ∧
    (upsertMany
        (upsertMany store
          (buildAttendanceRecords classroomId classDate quarterId
            [(studentId, status)]))
        (buildAttendanceRecords classroomId classDate quarterId
          [(studentId, status)])).filter
        (fun x => sameKey ⟨classroomId, studentId, classDate, quarterId, status⟩ x) =
      [⟨classroomId, studentId, classDate, quarterId, status⟩] := by
  simp only [buildAttendanceRecords, List.map_cons, List.map_nil, upsertMany,
    List.foldl_cons, List.foldl_nil]
  rw [upsertOne_idem]
  exact ⟨rfl, filter_upsertOne store _ hnodup⟩

/-- Witness for `saveAttendance_idempotent` over a store holding an
older record for the same key and an unrelated record. -/
theorem saveAttendance_idempotent_witness :
    upsertMany
        (upsertMany
          [⟨"c1", "s1", "2024-01-03", "q1", "absent"⟩,
           ⟨"c1", "s2", "2024-01-03", "q1", "present"⟩]
          (buildAttendanceRecords "c1" "2024-01-03" "q1" [("s1", "present")]))
        (buildAttendanceRecords "c1" "2024-01-03" "q1" [("s1", "present")]) =
      upsertMany
        [⟨"c1", "s1", "2024-01-03", "q1", "absent"⟩,
         ⟨"c1", "s2", "2024-01-03", "q1", "present"⟩]
        (buildAttendanceRecords "c1" "2024-01-03" "q1" [("s1", "present")]) ∧
    (upsertMany
        (upsertMany
          [⟨"c1", "s1", "2024-01-03", "q1", "absent"⟩,
           ⟨"c1", "s2", "2024-01-03", "q1", "present"⟩]
          (buildAttendanceRecords "c1" "2024-01-03" "q1" [("s1", "present")]))
        (buildAttendanceRecords "c1" "2024-01-03" "q1" [("s1", "present")])).filter
        (fun x => sameKey ⟨"c1", "s1", "2024-01-03", "q1", "present"⟩ x) =
      [⟨"c1", "s1", "2024-01-03", "q1", "present"⟩] :=
  saveAttendance_idempotent "c1" "s1" "2024-01-03" "q1" "present" _ (by decide)

/-! ## Reports: attendance pivot and cell rendering (`Reports.tsx`) -/

/-- A student as joined into the report queries. -/
structure Student where
  id : String
  first_name : String
  last_name : String
deriving DecidableEq

/-- A fetched attendance row of the report query (`Reports.tsx` lines
22–28), with the joined `student` (absent when the join returned no
student). -/
structure ReportAttendanceRecord where
  id : String
  class_date : String
  status : String
  student_id : String
  student : Option Student
deriving DecidableEq

/-- Code-point lexicographic order on character lists — what the JS
default `Array.prototype.sort()` string comparison does. -/
def charListLe : List Char → List Char → Bool
  | [], _ => true
  | _ :: _, [] => false
  | a :: as, b :: bs =>
    if a.val < b.val then true
    else if b.val < a.val then false
    else charListLe as bs

/-- JS default string comparison used by `.sort()`. -/
def strLe (a b : String) : Bool := charListLe a.data b.data

/-- Insertion of one element into a `strLe`-sorted list. -/
def insertSorted (x : String) : List String → List String
  | [] => [x]
  | y :: ys => if strLe x y then x :: y :: ys else y :: insertSorted x ys

/-- JS `Array.prototype.sort()` on strings (insertion sort; the set of
keys sorted here is duplicate-free, so stability is irrelevant). -/
def sortStrings : List String → List String
  | [] => []
  | x :: xs => insertSorted x (sortStrings xs)

/-- `[...new Set(xs)]`: first-occurrence deduplication, preserving
order. -/
def dedupFirstAux : List String → List String → List String
  | _, [] => []
  | seen, x :: xs =>
    if seen.contains x then dedupFirstAux seen xs
    else x :: dedupFirstAux (x :: seen) xs

/-- `[...new Set(xs)]` as used for `uniqueDates`. -/
def dedupFirst (l : List String) : List String := dedupFirstAux [] l

/-- JS `Map.set` semantics used to build `studentsMap`: overwrite the
value of an existing key in place, otherwise append. -/
def mapSet (m : List (String × Student)) (k : String) (v : Student) :
    List (String × Student) :=
  if m.any (fun p => p.1 == k) then
    m.map (fun p => if p.1 == k then (k, v) else p)
  else m ++ [(k, v)]

/-- One row of the pivoted attendance report: a cell per class date. -/
structure AttendanceReportRow where
  student_id : String
  student_name : String
  cells : List (String × String)
deriving DecidableEq

/-- The cell value of the pivot (`Reports.tsx` lines 216–221):
`attendanceRecord?.status || 'No Record'` of the first record matching
the student and date (`||` also maps an empty-string status to the
sentinel). -/
def attendanceCellValue (data : List ReportAttendanceRecord)
    (studentId date : String) : String :=
  match data.find? (fun r => r.student_id == studentId && r.class_date == date) with
  | some r => if r.status == "" then "No Record" else r.status
  | none => "No Record"

/-- `attendanceReportData` (`Reports.tsx` lines 191–227): the sorted
distinct class dates in the data, the distinct students appearing, and
one pivot row per student with one cell per date. -/
def attendanceReportData (data : List ReportAttendanceRecord) :
    List AttendanceReportRow × List String :=
  if data = [] then ([], [])
  else
    let uniqueDates := sortStrings (dedupFirst (data.map (·.class_date)))
    let studentsMap := data.foldl
      (fun m r =>
        match r.student with
        | some st => mapSet m r.student_id st
        | none => m)
      []
    let pivotData := studentsMap.map fun p =>
      { student_id := p.2.id,
        student_name := p.2.first_name ++ " " ++ p.2.last_name,
        cells := uniqueDates.map fun date =>
          (date, attendanceCellValue data p.2.id date) }
    (pivotData, uniqueDates)

/-- **C3 (counterexample).** With students A, B and dates d1, d2 but
only the single record (A, d1, "present") in the input, the pivot
derives its student set and date set from the input rows, so the output
holds no row for B at all (and no column for d2) — contradicting the
claim that B's row shows the "No Record" sentinel at d1 and d2. -/
theorem attendanceReportData_single_record :
    (attendanceReportData
        [⟨"r1", "2024-01-01", "present", "sA", some ⟨"sA", "Alice", "Adams"⟩⟩]).2 =
      ["2024-01-01"] ∧
    (attendanceReportData
        [⟨"r1", "2024-01-01", "present", "sA", some ⟨"sA", "Alice", "Adams"⟩⟩]).1.map
      (fun row => row.student_id) = ["sA"] ∧
    ¬ ∃ row ∈ (attendanceReportData
        [⟨"r1", "2024-01-01", "present", "sA", some ⟨"sA", "Alice", "Adams"⟩⟩]).1,
      row.student_id = "sB" := by
  decide

/-- **C3 (amended).** The pivot derives students and dates from the
input rows, so a student or date appears only if some record mentions
it.  For students A, B and dates d1, d2 with records (A, d1, "present")
and (B, d2, "absent"): A's row shows "present" at d1 and the
"No Record" sentinel at d2, B's row shows "No Record" at d1 and
"absent" at d2; with only (A, d1, "present") recorded the output is a
single row for A over the single date d1, showing "present". -/
theorem attendanceReportData_pivot :
    attendanceReportData
        [⟨"r1", "2024-01-01", "present", "sA", some ⟨"sA", "Alice", "Adams"⟩⟩,
         ⟨"r2", "2024-01-03", "absent", "sB", some ⟨"sB", "Bob", "Brown"⟩⟩] =
      ([{ student_id := "sA", student_name := "Alice Adams",
          cells := [("2024-01-01", "present"), ("2024-01-03", "No Record")] },
        { student_id := "sB", student_name := "Bob Brown",
          cells := [("2024-01-01", "No Record"), ("2024-01-03", "absent")] }],
       ["2024-01-01", "2024-01-03"]) ∧
    attendanceReportData
        [⟨"r1", "2024-01-01", "present", "sA", some ⟨"sA", "Alice", "Adams"⟩⟩] =
      ([{ student_id := "sA", student_name := "Alice Adams",
          cells := [("2024-01-01", "present")] }],
       ["2024-01-01"]) := by
  decide

/-- JS `toLowerCase` (the per-character case mapping; identical on the
ASCII statuses involved): lowercase each character. -/
def strToLower (s : String) : String := String.mk (s.data.map Char.toLower)

/-- JS `status.charAt(0).toUpperCase()`: the first character of the
string, uppercased, as a one-character string (empty on the empty
string). -/
def firstCharUpper (s : String) : String :=
  match s.data with
  | [] => ""
  | c :: _ => String.singleton c.toUpper

/-- The attendance report cell renderer (`Reports.tsx` lines 242–274):
the displayed letter and CSS class for a cell's status.  `none` models
a missing (`undefined`) status, on which `status?.toLowerCase()` is
undefined and `status &&` is falsy. -/
def attendanceCellDisplay (status : Option String) : String × String :=
  let statusLower := status.map strToLower
  if statusLower = some "present" then ("P", "bg-green-100 text-green-800")
  else if statusLower = some "absent" then ("A", "bg-red-100 text-red-800")
  else if statusLower = some "late" ∨ statusLower = some "tardy" then
    ("T", "bg-yellow-100 text-yellow-800")
  else
    match status with
    | some s =>
      if s ≠ "" ∧ s ≠ "No Record" then (firstCharUpper s, "bg-blue-100 text-blue-800")
      else ("-", "bg-gray-100 text-gray-800")
    | none => ("-", "bg-gray-100 text-gray-800")

/-- **C6 (counterexample).** The status "late" is neither a casing of
"present"/"absent"/"tardy" nor empty nor the no-record sentinel, so the
claim maps it to its first character uppercased ("L") with the neutral
treatment — but the code maps any casing of "late" to the cautionary
"T", like "tardy". -/
theorem attendanceCellDisplay_late :
    attendanceCellDisplay (some "late") = ("T", "bg-yellow-100 text-yellow-800") ∧
      attendanceCellDisplay (some "late") ≠
        (firstCharUpper "late", "bg-blue-100 text-blue-800") := by
  decide

/-- **C6 (amended).** Attendance status-to-display mapping: any casing
of "present" gets the positive-styled "P", any casing of "absent" the
negative-styled "A", any casing of "tardy" — and also of "late" — the
cautionary-styled "T"; any other non-empty value that is not the
no-record sentinel gets its first character uppercased with the neutral
treatment; the sentinel, the empty string and a missing status get the
muted dash. -/
theorem attendanceCellDisplay_spec :
    (∀ s : String, strToLower s = "present" →
      attendanceCellDisplay (some s) = ("P", "bg-green-100 text-green-800")) ∧
    (∀ s : String, strToLower s = "absent" →
      attendanceCellDisplay (some s) = ("A", "bg-red-100 text-red-800")) ∧
    (∀ s : String, strToLower s = "tardy" ∨ strToLower s = "late" →
      attendanceCellDisplay (some s) = ("T", "bg-yellow-100 text-yellow-800")) ∧
    (∀ s : String, strToLower s ≠ "present" → strToLower s ≠ "absent" →
      strToLower s ≠ "tardy" → strToLower s ≠ "late" → s ≠ "" → s ≠ "No Record" →
      attendanceCellDisplay (some s) = (firstCharUpper s, "bg-blue-100 text-blue-800")) ∧
    (∀ s : String, s = "" ∨ s = "No Record" →
      attendanceCellDisplay (some s) = ("-", "bg-gray-100 text-gray-800")) ∧
    attendanceCellDisplay none = ("-", "bg-gray-100 text-gray-800") := by
  refine ⟨?_, ?_, ?_, ?_, ?_, rfl⟩
  · intro s hs
    simp [attendanceCellDisplay, hs]
  · intro s hs
    simp [attendanceCellDisplay, hs]
  · rintro s (hs | hs) <;> simp [attendanceCellDisplay, hs]
  · intro s h1 h2 h3 h4 h5 h6
    simp [attendanceCellDisplay, h1, h2, h3, h4, h5, h6]
  · rintro s (rfl | rfl) <;> decide

/-- Witness for `attendanceCellDisplay_spec`, exercising each
hypothesis-guarded case at a concrete status. -/
theorem attendanceCellDisplay_spec_witness :
    attendanceCellDisplay (some "Present") = ("P", "bg-green-100 text-green-800") ∧
    attendanceCellDisplay (some "ABSENT") = ("A", "bg-red-100 text-red-800") ∧
    attendanceCellDisplay (some "Tardy") = ("T", "bg-yellow-100 text-yellow-800") ∧
    attendanceCellDisplay (some "excused") = ("E", "bg-blue-100 text-blue-800") ∧
    attendanceCellDisplay (some "No Record") = ("-", "bg-gray-100 text-gray-800") :=
  ⟨attendanceCellDisplay_spec.1 "Present" (by decide),
   attendanceCellDisplay_spec.2.1 "ABSENT" (by decide),
   attendanceCellDisplay_spec.2.2.1 "Tardy" (Or.inl (by decide)),
   by
     have := attendanceCellDisplay_spec.2.2.2.1 "excused" (by decide) (by decide)
       (by decide) (by decide) (by decide) (by decide)
     simpa using this,
   attendanceCellDisplay_spec.2.2.2.2.1 "No Record" (Or.inr rfl)⟩

/-- `isLowGrade` in every grading column of `Reports.tsx` (lines
281–298): `value !== null && value < 70`. -/
def isLowGrade (value : Option Int) : Bool :=
  match value with
  | none => false
  | some v => decide (v < 70)

/-- The grading cell span class (`Reports.tsx`): the warning visual
treatment exactly when `isLowGrade`. -/
def gradeCellClass (value : Option Int) : String :=
  if isLowGrade value then "bg-red-100 px-2 py-1 rounded" else ""

/-- **C7.** Grade cell warning threshold: a non-null score receives the
warning treatment if and only if it is strictly below 70; in particular
65 is flagged and 70 is not. -/
theorem gradeCell_spec :
    (∀ v : Int,
      gradeCellClass (some v) = "bg-red-100 px-2 py-1 rounded" ↔ v < 70) ∧
    gradeCellClass (some 65) = "bg-red-100 px-2 py-1 rounded" ∧
    gradeCellClass (some 70) = "" := by
  refine ⟨fun v => ?_, by decide, by decide⟩
  by_cases h : v < 70 <;> simp [gradeCellClass, isLowGrade, h]

/-! ## Role-gated routing (`ProtectedRoute`) -/

/-- What the route guard renders: the loading spinner, a redirect, or
the requested protected content (`Outlet`). -/
inductive RouteResult where
  | spinner
  | navigate (target : String)
  | outlet (requested : String)
deriving DecidableEq

/-- `ProtectedRoute` (lines 4–24 of its source file).  `user` is session
presence, `role` is `none` for a null or non-string role value (the
source checks `typeof role === "string"`), and `requested` is the
protected path being visited — the component never inspects it;
`Outlet` renders it. -/
def ProtectedRoute (requested : String) (loading user : Bool)
    (role : Option String) : RouteResult :=
  if loading then .spinner
  else if !user then .navigate "/"
  else if role = some "admin" then .outlet requested
  else if role = some "pending" then .navigate "/pending-activation"
  else if (match role with
           | some r => ["student", "teacher", "coordinator"].contains r
           | none => false) then .outlet requested
  else .navigate "/"

/-- **C5.** Role-gated routing, after loading completes: no user
redirects to sign-in ("/"); role "pending" redirects to the
pending-activation path regardless of the requested protected path;
role "admin" is always admitted to the requested path; roles "student",
"teacher", "coordinator" are admitted; every other role value —
including a null or non-string role, modelled as `none` — redirects to
sign-in as if unauthenticated. -/
theorem protectedRoute_spec (requested : String) :
    (∀ role, ProtectedRoute requested false false role = .navigate "/") ∧
    ProtectedRoute requested false true (some "pending") =
      .navigate "/pending-activation" ∧
    ProtectedRoute requested false true (some "admin") = .outlet requested ∧
    (∀ r, r = "student" ∨ r = "teacher" ∨ r = "coordinator" →
      ProtectedRoute requested false true (some r) = .outlet requested) ∧
    (∀ s : String, s ∉ ["pending", "admin", "student", "teacher", "coordinator"] →
      ProtectedRoute requested false true (some s) = .navigate "/") ∧
    ProtectedRoute requested false true none = .navigate "/" := by
  refine ⟨fun role => rfl, rfl, rfl, ?_, ?_, rfl⟩
  · rintro r (rfl | rfl | rfl) <;> rfl
  · intro s hs
    simp only [List.mem_cons, List.not_mem_nil, or_false, not_or] at hs
    obtain ⟨h1, h2, h3, h4, h5⟩ := hs
    simp [ProtectedRoute, h1, h2, h3, h4, h5]

/-- Witness for `protectedRoute_spec`: a teacher is admitted to the
requested path; an unknown role is sent to sign-in. -/
theorem protectedRoute_spec_witness :
    ProtectedRoute "/dashboard/users" false true (some "teacher") =
      .outlet "/dashboard/users" ∧
    ProtectedRoute "/dashboard/users" false true (some "ghost") = .navigate "/" :=
  ⟨(protectedRoute_spec "/dashboard/users").2.2.2.1 "teacher" (Or.inr (Or.inl rfl)),
   (protectedRoute_spec "/dashboard/users").2.2.2.2.1 "ghost" (by decide)⟩

/-! ## Attendance save: event trace and cache invalidation -/

/-- An observable step of a `saveAttendanceMutation` run: the upsert
network call, or a query-cache invalidation. -/
inductive SaveEvent where
  | upsertCall (records : List AttendanceRow)
  | invalidate (queryKey : List String)
deriving DecidableEq

/-- The read-query key
`["attendance", selectedClassroom, selectedDate, activeQuarter?.id]`
(`Attendance.tsx` line 68) — also the exact key invalidated on save
success (line 146). -/
def attendanceQueryKey (classroomId classDate quarterId : String) :
    List String :=
  ["attendance", classroomId, classDate, quarterId]

/-- Whether an event is a cache invalidation. -/
def isInvalidateEvent : SaveEvent → Bool
  | .invalidate _ => true
  | .upsertCall _ => false

/-- One run of `saveAttendanceMutation` (`Attendance.tsx` lines
121–149), under the react-query contract that `onSuccess` runs exactly
when `mutationFn` resolves: with no active quarter the mutation throws
before any network call; otherwise the upsert is issued with the built
records, and only when it resolves successfully does `onSuccess` issue
the invalidation of the exact read key.  `upsertResult` injects the
network outcome; the result is the ordered event trace together with
the mutation's outcome. -/
def runSaveAttendance (classroomId classDate : String)
    (activeQuarterId : Option String) (entries : List (String × String))
    (upsertResult : Except String Unit) : List SaveEvent × Except String Unit :=
  match activeQuarterId with
  | none => ([], .error "No active quarter selected")
  | some quarterId =>
    let records := buildAttendanceRecords classroomId classDate quarterId entries
    match upsertResult with
    | .ok _ =>
      ([.upsertCall records,
        .invalidate (attendanceQueryKey classroomId classDate quarterId)], .ok ())
    | .error e => ([.upsertCall records], .error e)

/-- **C8.** Cache-invalidation ordering: on a successful save the trace
is exactly the upsert call followed by the invalidation of the exact
`(classroom, date, quarter)` read key — the invalidation is issued only
after the upsert resolves successfully; when the upsert fails, or no
active quarter exists, no invalidation is issued at all. -/
theorem saveAttendance_invalidation_spec (classroomId classDate quarterId : String)
    (entries : List (String × String)) :
    (runSaveAttendance classroomId classDate (some quarterId) entries
        (Except.ok ())).1 =
      [SaveEvent.upsertCall
         (buildAttendanceRecords classroomId classDate quarterId entries),
       SaveEvent.invalidate (attendanceQueryKey classroomId classDate quarterId)] ∧
    (∀ errMsg,
      (runSaveAttendance classroomId classDate (some quarterId) entries
          (Except.error errMsg)).1.filter isInvalidateEvent = []) ∧
    (∀ upsertResult,
      (runSaveAttendance classroomId classDate none entries upsertResult).1.filter
        isInvalidateEvent = []) :=
  ⟨rfl, fun _ => rfl, fun _ => rfl⟩

/-! ## Sign-up: inserted role (`SignUp.onSubmit`) -/

/-- The auth user returned by `supabase.auth.signUp`. -/
structure AuthUser where
  id : String
  email : String
  created_at : String
deriving DecidableEq

/-- A row of the `users` table as inserted by the sign-up flow. -/
structure UserRow where
  id : String
  email : String
  full_name : String
  role : String
  created_at : String
deriving DecidableEq

/-- The `users` rows inserted by `SignUp.onSubmit` (lines 107–117 of
its source file): when the auth sign-up returns a user, insert exactly
one row — with `role: "pending"`; when it returns no user, nothing is
inserted. -/
def signUpInsertedRows (signUpUser : Option AuthUser) (name : String) :
    List UserRow :=
  match signUpUser with
  | some u =>
    [{ id := u.id, email := u.email, full_name := name, role := "pending",
       created_at := u.created_at }]
  | none => []

/-- **C10.** Every user row created by the sign-up flow carries role
exactly "pending": for every auth outcome and sign-up name, every
inserted `users` row has `role = "pending"`. -/
theorem signUp_role_pending (signUpUser : Option AuthUser) (name : String) :
    (signUpInsertedRows signUpUser name).all (fun row => row.role == "pending") =
      true := by
  cases signUpUser with
  | none => rfl
  | some u => rfl

end WorldLanguage
